import Mathlib

/-
  Verification development for the zero-network/dusk-plonk sources.

  The composer (`src/lib.rs`) is embedded over the scalar field of the curve,
  modelled as `ZMod p`; the verifier arithmetic (`src/proof_system/proof.rs`)
  is embedded over an arbitrary `Field F`.  External collaborators (the
  `zksnarks` constraint/permutation types, the transcript, the KZG opening
  key, the FFT evaluation domain, curve arithmetic) are modelled from the
  specification and marked as such in their doc comments.
-/

namespace Zkplonk


/-- Modelled from the spec: the error kinds of the external `zksnarks` error
enum that this crate surfaces (`ProofVerificationError`, `DomainTooLarge`,
`UnsupportedWNAF2k`). -/
inductive Error where
  | ProofVerificationError
  | DomainTooLarge
  | UnsupportedWNAF2k
deriving DecidableEq

/-- Modelled from the spec: the wire columns `{a, b, o, d}` recorded by the
permutation builder (the source file `permutation.rs` is not among the
provided sources). -/
inductive WireColumn where
  | colA
  | colB
  | colO
  | colD
deriving DecidableEq

/-- Modelled from the spec: the permutation builder keeps, for each wire
index, an ordered list of `(gate index, column)` placements. -/
structure Permutation where
  variableMap : List (List (ℕ × WireColumn))
deriving DecidableEq

def Permutation.new : Permutation := ⟨[]⟩

/-- Modelled from the spec: registering a fresh witness adds an empty
placement list for the new wire. -/
def Permutation.newWitness (P : Permutation) : Permutation :=
  ⟨P.variableMap ++ [[]]⟩

/-- Append one placement to the list of the given wire. -/
def addPlacement (m : List (List (ℕ × WireColumn))) (w : ℕ) (e : ℕ × WireColumn) :
    List (List (ℕ × WireColumn)) :=
  m.set w (m.getD w [] ++ [e])

/-- Modelled from the spec: `add_witnesses_to_map(w_a, w_b, w_o, w_d, gate)`
appends the four placements of one gate. -/
def Permutation.addWitnessesToMap (P : Permutation) (wA wB wO wD n : ℕ) : Permutation :=
  ⟨addPlacement (addPlacement (addPlacement (addPlacement
      P.variableMap wA (n, WireColumn.colA)) wB (n, WireColumn.colB))
      wO (n, WireColumn.colO)) wD (n, WireColumn.colD)⟩

/-- Modelled from the spec: a width-4 PLONK constraint row of the external
`zksnarks` crate: four wire indices, the arithmetic selectors, the gadget
activation selectors and an optional public input. -/
structure Constraint (F : Type) where
  wA : ℕ
  wB : ℕ
  wO : ℕ
  wD : ℕ
  qM : F
  qL : F
  qR : F
  qO : F
  qD : F
  qC : F
  qArith : F
  qRange : F
  qLogic : F
  qFixedGroupAdd : F
  qVariableGroupAdd : F
  publicInput : Option F
deriving DecidableEq

/-- Modelled from the spec: `Constraint::default()` selects the ZERO wire in
every column and zeroes every selector. -/
def Constraint.default {F : Type} [Zero F] : Constraint F :=
  ⟨0, 0, 0, 0, 0, 0, 0, 0, 0, 0, 0, 0, 0, 0, 0, none⟩

def Constraint.a {F : Type} (c : Constraint F) (w : ℕ) : Constraint F := { c with wA := w }

def Constraint.b {F : Type} (c : Constraint F) (w : ℕ) : Constraint F := { c with wB := w }

def Constraint.o {F : Type} (c : Constraint F) (w : ℕ) : Constraint F := { c with wO := w }

def Constraint.d {F : Type} (c : Constraint F) (w : ℕ) : Constraint F := { c with wD := w }

def Constraint.mult {F : Type} (c : Constraint F) (v : F) : Constraint F := { c with qM := v }

def Constraint.left {F : Type} (c : Constraint F) (v : F) : Constraint F := { c with qL := v }

def Constraint.right {F : Type} (c : Constraint F) (v : F) : Constraint F := { c with qR := v }

def Constraint.output {F : Type} (c : Constraint F) (v : F) : Constraint F := { c with qO := v }

def Constraint.fourth {F : Type} (c : Constraint F) (v : F) : Constraint F := { c with qD := v }

def Constraint.constant {F : Type} (c : Constraint F) (v : F) : Constraint F := { c with qC := v }

def Constraint.public {F : Type} (c : Constraint F) (v : F) : Constraint F :=
  { c with publicInput := some v }

/-- Modelled from the spec: activate the arithmetic selector. -/
def Constraint.arithmetic {F : Type} [One F] (c : Constraint F) : Constraint F :=
  { c with qArith := 1 }

/-- Modelled from the spec: activate the range selector. -/
def Constraint.range {F : Type} [One F] (c : Constraint F) : Constraint F :=
  { c with qRange := 1 }

/-- Modelled from the spec: activate the logic selector for AND
(`q_logic = -1`). -/
def Constraint.logic {F : Type} [One F] [Neg F] (c : Constraint F) : Constraint F :=
  { c with qLogic := -1 }

/-- Modelled from the spec: activate the logic selector for XOR
(`q_logic = +1`). -/
def Constraint.logicXor {F : Type} [One F] (c : Constraint F) : Constraint F :=
  { c with qLogic := 1 }

/-- Modelled from the spec: activate the variable-base curve addition
selector. -/
def Constraint.groupAddCurveAddtion {F : Type} [One F] (c : Constraint F) : Constraint F :=
  { c with qVariableGroupAdd := 1 }

/-- Modelled from the spec: activate the fixed-base curve scalar selector. -/
def Constraint.groupAddCurveScalar {F : Type} [One F] (c : Constraint F) : Constraint F :=
  { c with qFixedGroupAdd := 1 }

/-- The composer state of `Plonk<C>` in `src/lib.rs`: constraint list, sparse
public-input map (the source uses a hash map keyed by fresh gate indices;
modelled as an association list), witness values and the permutation
builder. -/
structure Plonk (p : ℕ) where
  constraints : List (Constraint (ZMod p))
  instanceMap : List (ℕ × ZMod p)
  witness : List (ZMod p)
  perm : Permutation
deriving DecidableEq

variable {p : ℕ}

def Plonk.new (p : ℕ) : Plonk p :=
  ⟨[], [], [], Permutation.new⟩

/-- Witness lookup `self[w]` (the source indexes the witness vector). -/
def Plonk.lookup (cp : Plonk p) (w : ℕ) : ZMod p :=
  cp.witness.getD w 0

/-- `append_witness`: push the value, register a fresh wire in the
permutation builder, return the new index. -/
def Plonk.appendWitness (cp : Plonk p) (v : ZMod p) : Plonk p × ℕ :=
  let n := cp.witness.length
  (⟨cp.constraints, cp.instanceMap, cp.witness ++ [v], cp.perm.newWitness⟩, n)

/-- `append_custom_gate`: append the constraint, record its public input (if
any) at the fresh gate index, and register the four wire placements. -/
def Plonk.appendCustomGate (cp : Plonk p) (c : Constraint (ZMod p)) : Plonk p :=
  let n := cp.constraints.length
  { constraints := cp.constraints ++ [c]
    instanceMap :=
      match c.publicInput with
      | some pi => (n, pi) :: cp.instanceMap
      | none => cp.instanceMap
    witness := cp.witness
    perm := cp.perm.addWitnessesToMap c.wA c.wB c.wO c.wD n }

/-- `append_gate`: force the arithmetic selector, then append. -/
def Plonk.appendGate (cp : Plonk p) (c : Constraint (ZMod p)) : Plonk p :=
  cp.appendCustomGate (Constraint.arithmetic c)

/-- `assert_equal_constant`: emit `q_l = 1, q_c = -constant, w_a = a`, with an
optional public input. -/
def Plonk.assertEqualConstant (cp : Plonk p) (a : ℕ) (constant : ZMod p)
    (pub : Option (ZMod p)) : Plonk p :=
  let c := ((Constraint.default.left 1).constant (-constant)).a a
  let c :=
    match pub with
    | some pi => c.public pi
    | none => c
  cp.appendGate c

/-- `assert_equal`: emit `q_l = 1, q_r = -1, w_a = a, w_b = b`. -/
def Plonk.assertEqual (cp : Plonk p) (a b : ℕ) : Plonk p :=
  cp.appendGate ((((Constraint.default.left 1).right (-1)).a a).b b)

/-- `append_dummy_gates`: four fresh witnesses (6, 1, 7, -20) and two blinding
arithmetic gates. -/
def Plonk.appendDummyGates (cp : Plonk p) : Plonk p :=
  let r := cp.appendWitness 6
  let cp := r.1
  let six := r.2
  let r := cp.appendWitness 1
  let cp := r.1
  let one := r.2
  let r := cp.appendWitness 7
  let cp := r.1
  let seven := r.2
  let r := cp.appendWitness (-20)
  let cp := r.1
  let minTwenty := r.2
  let c := ((((((((((Constraint.default.mult 1).left 2).right 3).fourth 1).constant
      4).output 4).a six).b seven).d one).o minTwenty)
  let cp := cp.appendGate c
  let c := ((((((((Constraint.default.mult 1).left 1).right 1).constant 127).output
      1).a minTwenty).b six).o seven)
  cp.appendGate c

/-- `initialize` (named `initialized` here): allocate the hard-wired ZERO and ONE witnesses, assert them
equal to the constants 0 and 1, then call `append_dummy_gates` twice. -/
def Plonk.initialized (p : ℕ) : Plonk p :=
  let slf := Plonk.new p
  let r := slf.appendWitness 0
  let slf := r.1
  let zeroW := r.2
  let r := slf.appendWitness 1
  let slf := r.1
  let oneW := r.2
  let slf := slf.assertEqualConstant zeroW 0 none
  let slf := slf.assertEqualConstant oneW 1 none
  let slf := slf.appendDummyGates
  slf.appendDummyGates

/-- The bit sequence consumed by `append_logic_component`: the source iterates
the canonical 256-bit representation MSB-first (`BitIterator8` over the
little-endian canonical bytes) and skips the `256 - num_bits` leading bits, so
element `j` is bit `num_bits - 1 - j` of the value. -/
def mkLogicBits (v numBits : ℕ) : List Bool :=
  ((List.range 256).map (fun j => v.testBit (255 - j))).drop (256 - numBits)

/-- One iteration of the logic-gadget loop, processing the quads at the given
indices; a missing bit access models the panic of an out-of-bounds index. -/
def appendLogicLoop (isXor : Bool) (aBits bBits : List Bool) :
    List ℕ → Plonk p → ZMod p → ZMod p → ZMod p → Constraint (ZMod p) →
    Option (Plonk p × Constraint (ZMod p))
  | [], cp, _, _, _, c => some (cp, c)
  | i :: rest, cp, leftAcc, rightAcc, outAcc, c =>
    let idx := i * 2
    match aBits[idx]?, aBits[idx + 1]?, bBits[idx]?, bBits[idx + 1]? with
    | some ah, some al, some bh, some bl =>
      let leftQuad : ℕ := 2 * ah.toNat + al.toNat
      let rightQuad : ℕ := 2 * bh.toNat + bl.toNat
      let outQuad : ℕ := if isXor then leftQuad ^^^ rightQuad else leftQuad &&& rightQuad
      let prodQuad : ℕ := leftQuad * rightQuad
      let leftAcc := leftAcc * 4 + (leftQuad : ZMod p)
      let rightAcc := rightAcc * 4 + (rightQuad : ZMod p)
      let outAcc := outAcc * 4 + (outQuad : ZMod p)
      let r := cp.appendWitness leftAcc
      let cp := r.1
      let witA := r.2
      let r := cp.appendWitness rightAcc
      let cp := r.1
      let witB := r.2
      let r := cp.appendWitness (prodQuad : ZMod p)
      let cp := r.1
      let witC := r.2
      let r := cp.appendWitness outAcc
      let cp := r.1
      let witD := r.2
      let c := c.o witC
      let cp := cp.appendCustomGate c
      let c := ((c.a witA).b witB).d witD
      appendLogicLoop isXor aBits bBits rest cp leftAcc rightAcc outAcc c
    | _, _, _, _ => none

/-- `append_logic_component`: clamp `num_bits` to 256, process
`num_quads = num_bits / 2` quads MSB-first while accumulating the operands and
the result in base 4, then append a final padding gate; the returned wire is
the fourth-column wire of the last accumulator row. -/
def Plonk.appendLogicComponent (cp : Plonk p) (a b : ℕ) (numBits : ℕ)
    (isComponentXor : Bool) : Option (Plonk p × ℕ) :=
  let numBits := min numBits 256
  let numQuads := numBits / 2
  let aBits := mkLogicBits (cp.lookup a).val numBits
  let bBits := mkLogicBits (cp.lookup b).val numBits
  let c0 :=
    if isComponentXor then Constraint.logicXor Constraint.default
    else Constraint.logic Constraint.default
  match appendLogicLoop isComponentXor aBits bBits (List.range' 0 numQuads) cp 0 0 0 c0 with
  | some (cp, c) =>
    let a := c.wA
    let b := c.wB
    let d := c.wD
    let cLast := ((Constraint.default.a a).b b).d d
    some (cp.appendCustomGate cLast, d)
  | none => none

/-- `append_logic_and`. -/
def Plonk.appendLogicAnd (cp : Plonk p) (a b : ℕ) (numBits : ℕ) : Option (Plonk p × ℕ) :=
  cp.appendLogicComponent a b numBits false

/-- `append_logic_xor`. -/
def Plonk.appendLogicXor (cp : Plonk p) (a b : ℕ) (numBits : ℕ) : Option (Plonk p × ℕ) :=
  cp.appendLogicComponent a b numBits true

/-- The quad read at loop step `i` out of `numBits` bits taken MSB-first. -/
def quadOf (v numBits i : ℕ) : ℕ :=
  2 * (v.testBit (numBits - 1 - 2 * i)).toNat + (v.testBit (numBits - 2 - 2 * i)).toNat

/-- The output quad computed by one loop step. -/
def outQuadOf (isXor : Bool) (va vb numBits i : ℕ) : ℕ :=
  if isXor then quadOf va numBits i ^^^ quadOf vb numBits i
  else quadOf va numBits i &&& quadOf vb numBits i

/-- Concrete composer: an initialized composer with two extra witnesses
holding 7 (wire 10) and 8 (wire 11). -/
def cpEx : Plonk 101 := (((Plonk.initialized 101).appendWitness 7).1.appendWitness 8).1

/-- One iteration of `component_range`: read the quad at `bit_index`,
accumulate it in base 4, append the accumulator witness and store it into
column `d`, `o`, `b` or `a` of gate `i / 4` (an out-of-bounds access models
the panic). -/
def rangeLoop (bits : List Bool) (numQuads : ℕ) :
    List ℕ → Plonk p → ZMod p → List ℕ → List (Constraint (ZMod p)) →
    Option (Plonk p × ZMod p × List ℕ × List (Constraint (ZMod p)))
  | [], cp, accumulator, accumulators, constraints =>
    some (cp, accumulator, accumulators, constraints)
  | i :: rest, cp, accumulator, accumulators, constraints =>
    let bitIndex := (numQuads - i) * 2
    match bits[bitIndex]?, bits[bitIndex + 1]? with
    | some q0, some q1 =>
      let quad : ℕ := q0.toNat + 2 * q1.toNat
      let accumulator := 4 * accumulator + (quad : ZMod p)
      let r := cp.appendWitness accumulator
      let cp := r.1
      let accumulatorVar := r.2
      let accumulators := accumulators ++ [accumulatorVar]
      let idx := i / 4
      if idx < constraints.length then
        let cNew :=
          match i % 4 with
          | 0 => (constraints.getD idx Constraint.default).d accumulatorVar
          | 1 => (constraints.getD idx Constraint.default).o accumulatorVar
          | 2 => (constraints.getD idx Constraint.default).b accumulatorVar
          | _ => (constraints.getD idx Constraint.default).a accumulatorVar
        rangeLoop bits numQuads rest cp accumulator accumulators (constraints.set idx cNew)
      else none
    | _, _ => none

/-- `component_range`: the source collects the 256 bits MSB-first and
reverses, so `bits[j]` is bit `j` (LSB-first, inlined here); it then
accumulates the quads from `pad` to `num_quads` inclusive, zeroes the last
constraint, stores the final accumulator in its fourth column, appends every
constraint and asserts the final accumulator equal to the input wire. -/
def Plonk.componentRange (cp : Plonk p) (witness : ℕ) (numBits : ℕ) : Option (Plonk p) :=
  let bits := (List.range 256).map (fun j => (cp.lookup witness).val.testBit j)
  let numGates := numBits / 8
  let numGates := if numBits % 8 ≠ 0 then numGates + 1 else numGates
  let numQuads := numGates * 4
  let pad := 1 + ((numQuads * 2 - numBits) / 2)
  let usedGates := numGates + 1
  let base := Constraint.range Constraint.default
  let constraints := List.replicate usedGates base
  match rangeLoop bits numQuads (List.range' pad (numQuads + 1 - pad)) cp 0 [] constraints with
  | none => none
  | some (cp, _, accumulators, constraints) =>
    let constraints := constraints.set (constraints.length - 1) Constraint.default
    let constraints :=
      match accumulators.getLast? with
      | some accv =>
        constraints.set (constraints.length - 1)
          ((constraints.getD (constraints.length - 1) Constraint.default).d accv)
      | none => constraints
    let cp := constraints.foldl (fun cp c => cp.appendCustomGate c) cp
    match accumulators.getLast? with
    | some accv => some (cp.assertEqual accv witness)
    | none => some cp

/-- The evaluated gate combination
`q_m*a*b + q_l*a + q_r*b + q_4*d + q_c + pi` used by
`append_evaluated_output`. -/
def constraintEval (cp : Plonk p) (s : Constraint (ZMod p)) : ZMod p :=
  s.qM * cp.lookup s.wA * cp.lookup s.wB + s.qL * cp.lookup s.wA + s.qR * cp.lookup s.wB
    + s.qD * cp.lookup s.wD + s.qC + s.publicInput.getD 0

/-- `append_evaluated_output`: solve the constraint for the output wire; the
value is `-x` when `q_o = 1`, `x` when `q_o = -1`, `x * -(q_o)⁻¹` otherwise,
and `None` exactly when `q_o = 0` (the failed `invert`). -/
def Plonk.appendEvaluatedOutput (cp : Plonk p) (s : Constraint (ZMod p)) :
    Option (Plonk p × ℕ) :=
  let x := constraintEval cp s
  let y := s.qO
  let o : Option (ZMod p) :=
    if y = 1 then some (-x)
    else if y = -1 then some x
    else if y = 0 then none
    else some (x * -(y⁻¹))
  o.map (fun v => cp.appendWitness v)

/-- `gate_add`: force `q_arith = 1` and `q_o = -1`, evaluate the output wire,
and append the completed gate (the `expect` branch is unreachable because
`q_o = -1`; it is modelled by returning the unchanged state). -/
def Plonk.gateAdd (cp : Plonk p) (s : Constraint (ZMod p)) : Plonk p × ℕ :=
  let s := (Constraint.arithmetic s).output (-1)
  match cp.appendEvaluatedOutput s with
  | some r => (r.1.appendGate (s.o r.2), r.2)
  | none => (cp, 0)

/-- `gate_mul`: identical body to `gate_add` (the two differ only in which
selectors the caller sets). -/
def Plonk.gateMul (cp : Plonk p) (s : Constraint (ZMod p)) : Plonk p × ℕ :=
  let s := (Constraint.arithmetic s).output (-1)
  match cp.appendEvaluatedOutput s with
  | some r => (r.1.appendGate (s.o r.2), r.2)
  | none => (cp, 0)

/-- `component_select`: `bit*a`, then `1 - bit`, then `(1-bit)*b`, then the
sum `[(1-bit)*b] + [bit*a]` — four gates. -/
def Plonk.componentSelect (cp : Plonk p) (bit a b : ℕ) : Plonk p × ℕ :=
  let r1 := cp.gateMul (((Constraint.default.mult 1).a bit).b a)
  let cp := r1.1
  let bitTimesA := r1.2
  let r2 := cp.gateAdd (((Constraint.default.left (-1)).constant 1).a bit)
  let cp := r2.1
  let oneMinBit := r2.2
  let r3 := cp.gateMul (((Constraint.default.mult 1).a oneMinBit).b b)
  let cp := r3.1
  let oneMinBitB := r3.2
  cp.gateAdd ((((Constraint.default.left 1).right 1).a oneMinBitB).b bitTimesA)

/-- Concrete composer for the selection gadget: `cpEx` with one more witness
holding 1 (wire 12, a boolean bit). -/
def cpSel : Plonk 101 := (cpEx.appendWitness 1).1

/-- Modelled from the spec: the per-widget commitment bundle for arithmetic
gates (the `zksnarks` key types are external to the sources). -/
structure ArithmeticKey (G : Type) where
  qM : G
  qL : G
  qR : G
  qO : G
  qC : G
  q4 : G
  qArith : G
deriving DecidableEq

/-- Modelled from the spec: the logic-widget commitment bundle. -/
structure LogicKey (G : Type) where
  qLogic : G
  qC : G
deriving DecidableEq

/-- Modelled from the spec: the range-widget commitment bundle. -/
structure RangeKey (G : Type) where
  qRange : G
deriving DecidableEq

/-- Modelled from the spec: the fixed-base scalar widget bundle. -/
structure FixedBaseKey (G : Type) where
  qFixedGroupAdd : G
deriving DecidableEq

/-- Modelled from the spec: the variable-base addition widget bundle. -/
structure VariableBaseKey (G : Type) where
  qVariableGroupAdd : G
deriving DecidableEq

/-- Modelled from the spec: the permutation bundle with four sigma
commitments. -/
structure PermutationKey (G : Type) where
  sSigma1 : G
  sSigma2 : G
  sSigma3 : G
  sSigma4 : G
deriving DecidableEq

/-- The PLONK verification key of `src/proof_system/widget.rs`: circuit size
and the per-widget commitment bundles. -/
structure VerificationKey (G : Type) where
  n : ℕ
  arithmetic : ArithmeticKey G
  logic : LogicKey G
  range : RangeKey G
  fixedBase : FixedBaseKey G
  variableBase : VariableBaseKey G
  permutation : PermutationKey G
deriving DecidableEq

/-- One message absorbed by the transcript while seeding the circuit
description (the Merlin transcript itself is external; the appended sequence
is modelled as a list). -/
inductive TranscriptEntry (G : Type) where
  | comm (label : String) (c : G)
  | domainSep (n : ℕ)
deriving DecidableEq

/-- `seed_transcript` of `src/proof_system/widget.rs`: append the circuit
description commitments in source order; note the commitment appended under
the label `s_sigma_4` is `permutation.s_sigma_1` in the source. -/
def VerificationKey.seedTranscript {G : Type} (vk : VerificationKey G) :
    List (TranscriptEntry G) :=
  [TranscriptEntry.comm ("q_m") vk.arithmetic.qM,
   TranscriptEntry.comm ("q_l") vk.arithmetic.qL,
   TranscriptEntry.comm ("q_r") vk.arithmetic.qR,
   TranscriptEntry.comm ("q_o") vk.arithmetic.qO,
   TranscriptEntry.comm ("q_c") vk.arithmetic.qC,
   TranscriptEntry.comm ("q_4") vk.arithmetic.q4,
   TranscriptEntry.comm ("q_arith") vk.arithmetic.qArith,
   TranscriptEntry.comm ("q_range") vk.range.qRange,
   TranscriptEntry.comm ("q_logic") vk.logic.qLogic,
   TranscriptEntry.comm ("q_variable_group_add") vk.variableBase.qVariableGroupAdd,
   TranscriptEntry.comm ("q_fixed_group_add") vk.fixedBase.qFixedGroupAdd,
   TranscriptEntry.comm ("s_sigma_1") vk.permutation.sSigma1,
   TranscriptEntry.comm ("s_sigma_2") vk.permutation.sSigma2,
   TranscriptEntry.comm ("s_sigma_3") vk.permutation.sSigma3,
   TranscriptEntry.comm ("s_sigma_4") vk.permutation.sSigma1,
   TranscriptEntry.domainSep vk.n]

/-- A concrete verification key (over `ℕ` commitments) whose four sigma
commitments are pairwise distinct. -/
def vkEx : VerificationKey ℕ :=
  ⟨4, ⟨1, 2, 3, 4, 5, 6, 7⟩, ⟨8, 9⟩, ⟨10⟩, ⟨11⟩, ⟨12⟩, ⟨21, 22, 23, 24⟩⟩

/-- Modelled from the spec: the wire pair of a witness point (`gadget::ecc`
is external to the sources). -/
structure WitnessPoint where
  x : ℕ
  y : ℕ
deriving DecidableEq

/-- Modelled from the spec: the curve operations of the external `jub_jub` /
`zkstd` crates used by `component_mul_generator`, abstracted over the point
type (identity, doubling, addition, negation and affine coordinates). -/
structure CurveOps (F P : Type) where
  identity : P
  double : P → P
  addP : P → P → P
  neg : P → P
  getX : P → F
  getY : P → F

/-- The chain `generator, 2·generator, 4·generator, ...` of given length. -/
def doubleChain {P : Type} (dbl : P → P) : P → ℕ → List P
  | _, 0 => []
  | g, n + 1 => g :: doubleChain dbl (dbl g) n

/-- The WNAF validation-and-accumulation pass of `component_mul_generator`:
every entry is mapped to `(scalar_to_add, point_to_add)` or rejected with
`UnsupportedWNAF2k`; the accumulator lists and the `xy_alpha` products are
collected.  It mutates no composer state. -/
def wnafRounds {P : Type} (ops : CurveOps (ZMod p) P) (multiples : List P) :
    List ℤ → ℕ → ZMod p → P →
    Except Error (List (ZMod p) × List P × List (ZMod p))
  | [], _, _, _ => Except.ok ([], [], [])
  | entry :: rest, i, prevScalar, prevPoint =>
    let m := multiples.getD i ops.identity
    let sp : Option (ZMod p × P) :=
      if entry = 0 then some (0, ops.identity)
      else if entry = -1 then some (-1, ops.neg m)
      else if entry = 1 then some (1, m)
      else none
    match sp with
    | none => Except.error Error.UnsupportedWNAF2k
    | some st =>
      let prevAccumulator := 2 * prevScalar
      let scalar := prevAccumulator + st.1
      let point := ops.addP prevPoint st.2
      let xyAlpha := ops.getX st.2 * ops.getY st.2
      match wnafRounds ops multiples rest (i + 1) scalar point with
      | Except.error e => Except.error e
      | Except.ok t => Except.ok (scalar :: t.1, point :: t.2.1, xyAlpha :: t.2.2)

/-- One iteration of the witness/gate-emission loop of
`component_mul_generator` (the first row also asserts the identity start). -/
def mulGenRound {P : Type} (ops : CurveOps (ZMod p) P) (scalarAcc : List (ZMod p))
    (pointAcc : List P) (xyAlphas : List (ZMod p)) (multiples : List P)
    (cp : Plonk p) (i : ℕ) : Plonk p :=
  let r := cp.appendWitness (ops.getX (pointAcc.getD i ops.identity))
  let cp := r.1
  let accX := r.2
  let r := cp.appendWitness (ops.getY (pointAcc.getD i ops.identity))
  let cp := r.1
  let accY := r.2
  let r := cp.appendWitness (scalarAcc.getD i 0)
  let cp := r.1
  let accumulatedBit := r.2
  let cp :=
    if i = 0 then
      ((cp.assertEqualConstant accX 0 none).assertEqualConstant accY 1
        none).assertEqualConstant accumulatedBit 0 none
    else cp
  let xBeta := ops.getX (multiples.getD i ops.identity)
  let yBeta := ops.getY (multiples.getD i ops.identity)
  let r := cp.appendWitness (xyAlphas.getD i 0)
  let cp := r.1
  let xyAlpha := r.2
  let xyBeta := xBeta * yBeta
  let c := Constraint.groupAddCurveScalar Constraint.default
  let c := ((((((c.left xBeta).right yBeta).constant xyBeta).a accX).b accY).o
      xyAlpha).d accumulatedBit
  cp.appendCustomGate c

/-- `component_mul_generator`: precompute the 256 doublings of the generator
(reversed), validate every WNAF digit of the scalar, and only then append the
256 accumulator rows, the final inert gate and the closing equality
assertion. -/
def Plonk.componentMulGenerator {P : Type} (cp : Plonk p) (ops : CurveOps (ZMod p) P)
    (computeWindowedNaf : ZMod p → ℕ → List ℤ) (jubjub : ℕ) (generator : P) :
    Plonk p × Except Error WitnessPoint :=
  let bits := 256
  let wnafPointMultiples := (doubleChain ops.double generator bits).reverse
  let scalar := cp.lookup jubjub
  let width := 2
  let wnafEntries := computeWindowedNaf scalar width
  match wnafRounds ops wnafPointMultiples wnafEntries.reverse 0 0 ops.identity with
  | Except.error e => (cp, Except.error e)
  | Except.ok t =>
    let scalarAcc := (0 : ZMod p) :: t.1
    let pointAcc := ops.identity :: t.2.1
    let xyAlphas := t.2.2
    let cp := (List.range bits).foldl
      (mulGenRound ops scalarAcc pointAcc xyAlphas wnafPointMultiples) cp
    let r := cp.appendWitness (ops.getX (pointAcc.getD bits ops.identity))
    let cp := r.1
    let accX := r.2
    let r := cp.appendWitness (ops.getY (pointAcc.getD bits ops.identity))
    let cp := r.1
    let accY := r.2
    let r := cp.appendWitness (scalarAcc.getD bits 0)
    let cp := r.1
    let lastAccumulatedBit := r.2
    let c := ((Constraint.default.a accX).b accY).d lastAccumulatedBit
    let cp := cp.appendGate c
    let cp := cp.assertEqual lastAccumulatedBit jubjub
    (cp, Except.ok ⟨accX, accY⟩)

/-- Curve operations instantiated on `ZMod 101` (the concrete values are
irrelevant to the atomicity claim). -/
def opsEx : CurveOps (ZMod 101) (ZMod 101) :=
  ⟨0, fun x => x + x, fun x y => x + y, fun x => -x, fun x => x, fun x => x⟩

/-- Modelled from the spec: the evaluation-domain interface of the external
`fft` module — size, inverse size, group generator `ω` and its inverse. -/
structure EvaluationDomain (F : Type) where
  sizeN : ℕ
  sizeInv : F
  groupGen : F
  groupGenInv : F
deriving DecidableEq

/-- Modelled from the spec: the supported FFT log-size bound `MAX_LOG`. -/
def maxLogSize : ℕ := 32

/-- Modelled from the spec: `EvaluationDomain::new(n)` fails with
`DomainTooLarge` when `n` exceeds `2^MAX_LOG`; the successful payload is
produced by the external constructor, abstracted as `mk`. -/
def EvaluationDomain.new {F : Type} (mk : ℕ → EvaluationDomain F) (n : ℕ) :
    Except Error (EvaluationDomain F) :=
  if 2 ^ maxLogSize < n then Except.error Error.DomainTooLarge else Except.ok (mk n)

variable {F : Type} [Field F] [DecidableEq F] {G : Type} [AddCommGroup G] [SMul F G]
variable {T : Type}

/-- The field `invert` (a `CtOption` in the source): `none` exactly on 0. -/
def invert (x : F) : Option F := if x = 0 then none else some x⁻¹

/-- Modelled from the spec: `Polynomial::t(n, z) = z^n - 1`, the vanishing
polynomial of the size-`n` domain (external `zero_kzg`). -/
def polynomialT (n : ℕ) (z : F) : F := z ^ n - 1

/-- Modelled from the spec: `util::batch_inversion` (the `util` module is not
among the sources) inverts the entries in place; zero entries are skipped and
stay zero, which matches the `0⁻¹ = 0` convention of the field inverse. -/
def batchInversion (v : List F) : List F := v.map (fun x => x⁻¹)

/-- `compute_barycentric_eval`: numerator `(z^n - 1) * n⁻¹`, the indices of
the non-zero evaluations, their batch-inverted denominators `ω⁻ⁱ·z - 1`,
and the weighted sum times the numerator. -/
def computeBarycentricEval (evaluations : List F) (point : F)
    (domain : EvaluationDomain F) : F :=
  let numerator := (point ^ domain.sizeN - 1) * domain.sizeInv
  let nonZeroEvaluations :=
    (List.range evaluations.length).filter (fun i => evaluations.getD i 0 ≠ 0)
  let denominators := batchInversion
    (nonZeroEvaluations.map (fun index => domain.groupGenInv ^ index * point - 1))
  let result := ((denominators.zip nonZeroEvaluations).map
    (fun di => di.1 * evaluations.getD di.2 0)).sum
  result * numerator

/-- Modelled from the spec: the `ProofEvaluations` carried by a proof (the
`linearization_poly` module is external to the sources). -/
structure ProofEvaluations (F : Type) where
  aEval : F
  bEval : F
  cEval : F
  dEval : F
  aNextEval : F
  bNextEval : F
  dNextEval : F
  sSigma1Eval : F
  sSigma2Eval : F
  sSigma3Eval : F
  qArithEval : F
  qCEval : F
  qLEval : F
  qREval : F
  permEval : F
  rPolyEval : F
deriving DecidableEq

/-- The `Proof` of `src/proof_system/proof.rs`: eleven commitments and the
evaluations. -/
structure Proof (F G : Type) where
  aComm : G
  bComm : G
  cComm : G
  dComm : G
  zComm : G
  tLowComm : G
  tMidComm : G
  tHighComm : G
  t4Comm : G
  wZChallComm : G
  wZChallWComm : G
  evaluations : ProofEvaluations F

/-- `compute_first_lagrange_evaluation`: `z_h_eval * (n*(z-1))⁻¹`, with
`none` modelling the panicking `unwrap` on a zero denominator. -/
def computeFirstLagrangeEvaluation (domain : EvaluationDomain F)
    (zHEval zChallenge : F) : Option F :=
  let nFr : F := (domain.sizeN : F)
  let denom := nFr * (zChallenge - 1)
  (invert denom).map (fun d => zHEval * d)

/-- `compute_quotient_evaluation` of `src/proof_system/proof.rs`; `none`
models the panicking `unwrap` when `z_h_eval` is zero. -/
def computeQuotientEvaluation (domain : EvaluationDomain F) (pubInputs : List F)
    (alpha beta gamma zChallenge zHEval l1Eval zHatEval : F)
    (ev : ProofEvaluations F) : Option F :=
  let piEval := computeBarycentricEval pubInputs zChallenge domain
  let alphaSq := alpha ^ 2
  let a := ev.rPolyEval + piEval
  let betaSig1 := beta * ev.sSigma1Eval
  let b0 := ev.aEval + betaSig1 + gamma
  let betaSig2 := beta * ev.sSigma2Eval
  let b1 := ev.bEval + betaSig2 + gamma
  let betaSig3 := beta * ev.sSigma3Eval
  let b2 := ev.cEval + betaSig3 + gamma
  let b3 := (ev.dEval + gamma) * zHatEval * alpha
  let b := b0 * b1 * b2 * b3
  let c := l1Eval * alphaSq
  (invert zHEval).map (fun zi => (a - b - c) * zi)

/-- `compute_quotient_commitment`:
`t_low + z^n·t_mid + z^{2n}·t_high + z^{3n}·t_4`. -/
def Proof.computeQuotientCommitment (prf : Proof F G) (zChallenge : F) (n : ℕ) : G :=
  let zN := zChallenge ^ n
  let zTwoN := zChallenge ^ (2 * n)
  let zThreeN := zChallenge ^ (3 * n)
  prf.tLowComm + zN • prf.tMidComm + zTwoN • prf.tHighComm + zThreeN • prf.t4Comm

/-- Modelled from the spec: `msm_variable_base` (external) — the multi-scalar
multiplication of the collected points and scalars. -/
def msmVariableBase (points : List G) (scalars : List F) : G :=
  ((scalars.zip points).map (fun sp => sp.1 • sp.2)).foldl (fun x y => x + y) 0

/-- Modelled from the spec: each verifier widget contributes scalars and
points (a fixed polynomial identity in the challenges and the evaluations) to
the linearization MSM; the widget modules are external, so the six
contribution functions are abstract parameters receiving the widget's
commitment bundle. -/
structure WidgetLinOps (F G : Type) where
  arithmeticLin : ArithmeticKey G → ProofEvaluations F →
    List F × List G → List F × List G
  rangeLin : RangeKey G → F → ProofEvaluations F → List F × List G → List F × List G
  logicLin : LogicKey G → F → ProofEvaluations F → List F × List G → List F × List G
  fixedBaseLin : FixedBaseKey G → F → ProofEvaluations F →
    List F × List G → List F × List G
  variableBaseLin : VariableBaseKey G → F → ProofEvaluations F →
    List F × List G → List F × List G
  permutationLin : PermutationKey G → ProofEvaluations F → F → F × F × F → F → G →
    List F × List G → List F × List G

/-- `compute_linearization_commitment`: accumulate the six widget
contributions into the scalar/point vectors in source order, then run the
MSM. -/
def Proof.computeLinearizationCommitment (prf : Proof F G) (w : WidgetLinOps F G)
    (alpha beta gamma rangeSep logicSep fixedBaseSep varBaseSep zChallenge l1Eval : F)
    (vk : VerificationKey G) : G :=
  let sp : List F × List G := ([], [])
  let sp := w.arithmeticLin vk.arithmetic prf.evaluations sp
  let sp := w.rangeLin vk.range rangeSep prf.evaluations sp
  let sp := w.logicLin vk.logic logicSep prf.evaluations sp
  let sp := w.fixedBaseLin vk.fixedBase fixedBaseSep prf.evaluations sp
  let sp := w.variableBaseLin vk.variableBase varBaseSep prf.evaluations sp
  let sp := w.permutationLin vk.permutation prf.evaluations zChallenge
    (alpha, beta, gamma) l1Eval prf.zComm sp
  msmVariableBase sp.2 sp.1

/-- Modelled from the spec: the transcript interface (the external Merlin
duplex hash) — appends mutate the state and `challenge_scalar` derives a
scalar deterministically from the prefix while ratcheting the state. -/
structure TranscriptOps (F G T : Type) where
  appendCommitment : String → G → T → T
  appendScalar : String → F → T → T
  challengeScalar : String → T → T × F

/-- Modelled from the spec: the aggregate KZG proof of
`commitment_scheme/kzg10/proof.rs` (not among the sources): a witness
commitment and the ordered `(evaluation, commitment)` parts. -/
structure AggregateProof (F G : Type) where
  witnessComm : G
  parts : List (F × G)

/-- Modelled from the spec: `flatten` draws the `aggregate_challenge` scalar
`v` and combines evaluations and commitments with powers of `v`. -/
def AggregateProof.flatten (ap : AggregateProof F G) (ops : TranscriptOps F G T)
    (t : T) : T × (F × G × G) :=
  let tv := ops.challengeScalar ("aggregate_challenge") t
  let v := tv.2
  let powers := (List.range ap.parts.length).map (fun i => v ^ i)
  let flatEval := ((powers.zip (ap.parts.map Prod.fst)).map
    (fun pe => pe.1 * pe.2)).sum
  let flatComm := ((powers.zip (ap.parts.map Prod.snd)).map
    (fun pc => pc.1 • pc.2)).foldl (fun x y => x + y) 0
  (tv.1, (flatEval, flatComm, ap.witnessComm))

/-- Modelled from the spec: `usize::next_power_of_two` — repeated doubling;
`n` doubling steps always suffice. -/
def nextPow2Go (n : ℕ) : ℕ → ℕ → ℕ
  | 0, power => power
  | fuel + 1, power => if n ≤ power then power else nextPow2Go n fuel (2 * power)

/-- Modelled from the spec: the smallest power of two not below `n`. -/
def nextPow2 (n : ℕ) : ℕ := nextPow2Go n n 1

/-- The body of `Proof::verify` after domain construction: replay the
Fiat-Shamir transcript, compute `Z_H(ζ)`, `L_1(ζ)` and `t_eval` (whose
failing `unwrap`s are modelled by `none`), rebuild the quotient and
linearization commitments, compose and flatten the two aggregate proofs, and
dispatch the batch check, mapping its failure to `ProofVerificationError`. -/
def Proof.verifyWithDomain (prf : Proof F G) (ops : TranscriptOps F G T)
    (w : WidgetLinOps F G) (batchCheck : List F → List (F × G × G) → T → Bool)
    (verifierKey : VerificationKey G) (t : T) (pubInputs : List F)
    (domain : EvaluationDomain F) : Option (Except Error Unit) :=
  let n := nextPow2 verifierKey.n
  let t := ops.appendCommitment ("a_w") prf.aComm t
  let t := ops.appendCommitment ("b_w") prf.bComm t
  let t := ops.appendCommitment ("c_w") prf.cComm t
  let t := ops.appendCommitment ("d_w") prf.dComm t
  let tb := ops.challengeScalar ("beta") t
  let beta := tb.2
  let t := ops.appendScalar ("beta") beta tb.1
  let tg := ops.challengeScalar ("gamma") t
  let gamma := tg.2
  let t := ops.appendCommitment ("z") prf.zComm tg.1
  let ta := ops.challengeScalar ("alpha") t
  let alpha := ta.2
  let tr := ops.challengeScalar ("range separation challenge") ta.1
  let rangeSepChallenge := tr.2
  let tl := ops.challengeScalar ("logic separation challenge") tr.1
  let logicSepChallenge := tl.2
  let tf := ops.challengeScalar ("fixed base separation challenge") tl.1
  let fixedBaseSepChallenge := tf.2
  let tv := ops.challengeScalar ("variable base separation challenge") tf.1
  let varBaseSepChallenge := tv.2
  let t := ops.appendCommitment ("t_low") prf.tLowComm tv.1
  let t := ops.appendCommitment ("t_mid") prf.tMidComm t
  let t := ops.appendCommitment ("t_high") prf.tHighComm t
  let t := ops.appendCommitment ("t_4") prf.t4Comm t
  let tz := ops.challengeScalar ("z_challenge") t
  let zChallenge := tz.2
  let t := tz.1
  let zHEval := polynomialT n zChallenge
  match computeFirstLagrangeEvaluation domain zHEval zChallenge with
  | none => none
  | some l1Eval =>
    match computeQuotientEvaluation domain pubInputs alpha beta gamma zChallenge zHEval
        l1Eval prf.evaluations.permEval prf.evaluations with
    | none => none
    | some tEval =>
      let tComm := prf.computeQuotientCommitment zChallenge n
      let t := ops.appendScalar ("a_eval") prf.evaluations.aEval t
      let t := ops.appendScalar ("b_eval") prf.evaluations.bEval t
      let t := ops.appendScalar ("c_eval") prf.evaluations.cEval t
      let t := ops.appendScalar ("d_eval") prf.evaluations.dEval t
      let t := ops.appendScalar ("a_next_eval") prf.evaluations.aNextEval t
      let t := ops.appendScalar ("b_next_eval") prf.evaluations.bNextEval t
      let t := ops.appendScalar ("d_next_eval") prf.evaluations.dNextEval t
      let t := ops.appendScalar ("s_sigma_1_eval") prf.evaluations.sSigma1Eval t
      let t := ops.appendScalar ("s_sigma_2_eval") prf.evaluations.sSigma2Eval t
      let t := ops.appendScalar ("s_sigma_3_eval") prf.evaluations.sSigma3Eval t
      let t := ops.appendScalar ("q_arith_eval") prf.evaluations.qArithEval t
      let t := ops.appendScalar ("q_c_eval") prf.evaluations.qCEval t
      let t := ops.appendScalar ("q_l_eval") prf.evaluations.qLEval t
      let t := ops.appendScalar ("q_r_eval") prf.evaluations.qREval t
      let t := ops.appendScalar ("perm_eval") prf.evaluations.permEval t
      let t := ops.appendScalar ("t_eval") tEval t
      let t := ops.appendScalar ("r_eval") prf.evaluations.rPolyEval t
      let rComm := prf.computeLinearizationCommitment w alpha beta gamma
        rangeSepChallenge logicSepChallenge fixedBaseSepChallenge varBaseSepChallenge
        zChallenge l1Eval verifierKey
      let aggregateProof : AggregateProof F G :=
        ⟨prf.wZChallComm,
          [(tEval, tComm), (prf.evaluations.rPolyEval, rComm),
           (prf.evaluations.aEval, prf.aComm), (prf.evaluations.bEval, prf.bComm),
           (prf.evaluations.cEval, prf.cComm), (prf.evaluations.dEval, prf.dComm),
           (prf.evaluations.sSigma1Eval, verifierKey.permutation.sSigma1),
           (prf.evaluations.sSigma2Eval, verifierKey.permutation.sSigma2),
           (prf.evaluations.sSigma3Eval, verifierKey.permutation.sSigma3)]⟩
      let fa := aggregateProof.flatten ops t
      let t := fa.1
      let flattenedProofA := fa.2
      let shiftedAggregateProof : AggregateProof F G :=
        ⟨prf.wZChallWComm,
          [(prf.evaluations.permEval, prf.zComm),
           (prf.evaluations.aNextEval, prf.aComm),
           (prf.evaluations.bNextEval, prf.bComm),
           (prf.evaluations.dNextEval, prf.dComm)]⟩
      let fb := shiftedAggregateProof.flatten ops t
      let t := fb.1
      let flattenedProofB := fb.2
      let t := ops.appendCommitment ("w_z") prf.wZChallComm t
      let t := ops.appendCommitment ("w_z_w") prf.wZChallWComm t
      if batchCheck [zChallenge, zChallenge * domain.groupGen]
          [flattenedProofA, flattenedProofB] t
        then some (Except.ok ())
        else some (Except.error Error.ProofVerificationError)

/-- `Proof::verify`: construct the evaluation domain (propagating its error
through `?`) and run the remainder. -/
def Proof.verify (prf : Proof F G) (mk : ℕ → EvaluationDomain F)
    (ops : TranscriptOps F G T) (w : WidgetLinOps F G)
    (batchCheck : List F → List (F × G × G) → T → Bool)
    (verifierKey : VerificationKey G) (t : T) (pubInputs : List F) :
    Option (Except Error Unit) :=
  match EvaluationDomain.new mk verifierKey.n with
  | Except.error e => some (Except.error e)
  | Except.ok domain =>
    prf.verifyWithDomain ops w batchCheck verifierKey t pubInputs domain

/-- Trivial transcript operations over a unit state (concrete instance for
witnesses). -/
def transcriptOpsEx : TranscriptOps (ZMod 101) (ZMod 101) Unit :=
  ⟨fun _ _ _ => (), fun _ _ _ => (), fun _ _ => ((), 0)⟩

/-- Trivial widget contributions (concrete instance for witnesses). -/
def widgetLinOpsEx : WidgetLinOps (ZMod 101) (ZMod 101) :=
  ⟨fun _ _ sp => sp, fun _ _ _ sp => sp, fun _ _ _ sp => sp, fun _ _ _ sp => sp,
   fun _ _ _ sp => sp, fun _ _ _ _ _ _ sp => sp⟩

/-- A concrete evaluation domain over `ZMod 101`. -/
def domainEx : EvaluationDomain (ZMod 101) := ⟨4, 1, 2, 3⟩

/-- A concrete proof object over `ZMod 101`. -/
def proofEx : Proof (ZMod 101) (ZMod 101) :=
  ⟨1, 2, 3, 4, 5, 6, 7, 8, 9, 10, 11,
   ⟨1, 2, 3, 4, 5, 6, 7, 8, 9, 10, 11, 12, 13, 14, 15, 16⟩⟩

/-- A verification key whose circuit size exceeds the supported FFT bound. -/
def vkBig : VerificationKey (ZMod 101) :=
  ⟨2 ^ 33, ⟨1, 2, 3, 4, 5, 6, 7⟩, ⟨8, 9⟩, ⟨10⟩, ⟨11⟩, ⟨12⟩, ⟨21, 22, 23, 24⟩⟩

/-- A concrete domain over `ZMod 101` with consistent inverse fields
(`34 = 3⁻¹`, `51 = 2⁻¹`). -/
def domainC5 : EvaluationDomain (ZMod 101) := ⟨3, 34, 2, 51⟩

theorem appendWitness_fst_constraints (cp : Plonk p) (v : ZMod p) :
    ((cp.appendWitness v).1).constraints = cp.constraints := rfl

theorem appendWitness_fst_witness (cp : Plonk p) (v : ZMod p) :
    ((cp.appendWitness v).1).witness = cp.witness ++ [v] := rfl

theorem appendWitness_snd (cp : Plonk p) (v : ZMod p) :
    (cp.appendWitness v).2 = cp.witness.length := rfl

theorem appendCustomGate_witness (cp : Plonk p) (c : Constraint (ZMod p)) :
    (cp.appendCustomGate c).witness = cp.witness := rfl

theorem appendCustomGate_constraints (cp : Plonk p) (c : Constraint (ZMod p)) :
    (cp.appendCustomGate c).constraints = cp.constraints ++ [c] := rfl

theorem lookup_appendCustomGate (cp : Plonk p) (c : Constraint (ZMod p)) (w : ℕ) :
    (cp.appendCustomGate c).lookup w = cp.lookup w := rfl

/-- The pair of bits at positions `2j+1, 2j` is the `j`-th base-4 digit. -/
theorem testBit_quad (v j : ℕ) :
    2 * (v.testBit (2 * j + 1)).toNat + (v.testBit (2 * j)).toNat = v / 4 ^ j % 4 := by
  have h4 : (2 : ℕ) ^ (2 * j) = 4 ^ j := by
    rw [pow_mul]
    norm_num
  have hdiv : v / 2 ^ (2 * j + 1) = v / 4 ^ j / 2 := by
    rw [pow_succ, h4, Nat.div_div_eq_div_mul]
  rw [Nat.testBit_to_div_mod, Nat.testBit_to_div_mod, hdiv, h4]
  by_cases h0 : v / 4 ^ j % 2 = 1 <;> by_cases h1 : v / 4 ^ j / 2 % 2 = 1 <;>
    simp [h0, h1] <;> omega

theorem quadOf_eq_digit (v q i : ℕ) (h : i < q) :
    quadOf v (2 * q) i = v / 4 ^ (q - 1 - i) % 4 := by
  have h1 : 2 * q - 1 - 2 * i = 2 * (q - 1 - i) + 1 := by omega
  have h2 : 2 * q - 2 - 2 * i = 2 * (q - 1 - i) := by omega
  simp only [quadOf]
  rw [h1, h2, testBit_quad]

/-- Folding the MSB-first quads of a value reconstructs its low `2q` bits. -/
theorem foldl_quad_digits (v q : ℕ) :
    ∀ (n k : ℕ), k + n = q →
      (List.range' k n).foldl (fun acc i => acc * 4 + quadOf v (2 * q) i)
        (v % 4 ^ q / 4 ^ (q - k)) = v % 4 ^ q
  | 0, k, hk => by
    have h0 : q - k = 0 := by omega
    simp [h0]
  | n + 1, k, hk => by
    rw [List.range'_succ]
    simp only [List.foldl_cons]
    have hkq : k < q := by omega
    have hj1 : q - k = (q - 1 - k) + 1 := by omega
    have hj2 : q - (k + 1) = q - 1 - k := by omega
    have hdig : quadOf v (2 * q) k = v / 4 ^ (q - 1 - k) % 4 := quadOf_eq_digit v q k hkq
    have hmur : v / 4 ^ (q - 1 - k) % 4 ^ (q - (q - 1 - k)) = v % 4 ^ q / 4 ^ (q - 1 - k) := by
      rw [← Nat.mod_mul_right_div_self, ← pow_add]
      have he : q - 1 - k + (q - (q - 1 - k)) = q := by omega
      rw [he]
    have hdvd : (4 : ℕ) ∣ 4 ^ (q - (q - 1 - k)) := dvd_pow_self 4 (by omega)
    have hmod : v % 4 ^ q / 4 ^ (q - 1 - k) % 4 = v / 4 ^ (q - 1 - k) % 4 := by
      rw [← hmur, Nat.mod_mod_of_dvd _ hdvd]
    have hdd : v % 4 ^ q / 4 ^ ((q - 1 - k) + 1) = v % 4 ^ q / 4 ^ (q - 1 - k) / 4 := by
      rw [pow_succ, ← Nat.div_div_eq_div_mul]
    have hstep : v % 4 ^ q / 4 ^ (q - k) * 4 + quadOf v (2 * q) k
        = v % 4 ^ q / 4 ^ (q - (k + 1)) := by
      rw [hj1, hj2, hdig, hdd]
      omega
    rw [hstep]
    exact foldl_quad_digits v q n (k + 1) (by omega)

theorem foldl_quad_eq_mod (v q : ℕ) :
    (List.range' 0 q).foldl (fun acc i => acc * 4 + quadOf v (2 * q) i) 0 = v % 4 ^ q := by
  have hlt : v % 4 ^ q < 4 ^ (q - 0) := by
    have : (0 : ℕ) < 4 ^ q := by positivity
    simpa using Nat.mod_lt v this
  have h0 : v % 4 ^ q / 4 ^ (q - 0) = 0 := Nat.div_eq_of_lt hlt
  have h := foldl_quad_digits v q q 0 (by omega)
  rwa [h0] at h

/-- Base-4 accumulation commutes with the cast from `ℕ` into `ZMod p`. -/
theorem foldl_acc_cast (g : ℕ → ℕ) :
    ∀ (l : List ℕ) (m : ℕ),
      l.foldl (fun acc i => acc * 4 + ((g i : ℕ) : ZMod p)) ((m : ℕ) : ZMod p)
        = ((l.foldl (fun acc i => acc * 4 + g i) m : ℕ) : ZMod p)
  | [], m => rfl
  | x :: xs, m => by
    simp only [List.foldl_cons]
    have hc : ((m : ZMod p) * 4 + ((g x : ℕ) : ZMod p)) = (((m * 4 + g x : ℕ) : ZMod p)) := by
      push_cast
      ring
    rw [hc]
    exact foldl_acc_cast g xs (m * 4 + g x)

theorem land_quad (x1 x0 y1 y0 : Bool) :
    (2 * x1.toNat + x0.toNat) &&& (2 * y1.toNat + y0.toNat)
      = 2 * (x1 && y1).toNat + (x0 && y0).toNat := by
  cases x1 <;> cases x0 <;> cases y1 <;> cases y0 <;> decide

theorem xor_quad (x1 x0 y1 y0 : Bool) :
    (2 * x1.toNat + x0.toNat) ^^^ (2 * y1.toNat + y0.toNat)
      = 2 * (x1 ^^ y1).toNat + (x0 ^^ y0).toNat := by
  cases x1 <;> cases x0 <;> cases y1 <;> cases y0 <;> decide

theorem outQuadOf_eq (isXor : Bool) (va vb numBits i : ℕ) :
    outQuadOf isXor va vb numBits i
      = quadOf (if isXor then va ^^^ vb else va &&& vb) numBits i := by
  cases isXor <;>
    simp only [outQuadOf, quadOf, Bool.false_eq_true, if_false, if_true,
      Nat.testBit_land, Nat.testBit_xor, land_quad, xor_quad]

theorem mkLogicBits_length (v numBits : ℕ) (h : numBits ≤ 256) :
    (mkLogicBits v numBits).length = numBits := by
  simp only [mkLogicBits, List.length_drop, List.length_map, List.length_range]
  omega

theorem mkLogicBits_get (v numBits j : ℕ) (hj : j < numBits) (h : numBits ≤ 256) :
    (mkLogicBits v numBits)[j]? = some (v.testBit (numBits - 1 - j)) := by
  simp only [mkLogicBits, List.getElem?_drop, List.getElem?_map]
  rw [List.getElem?_range (by omega)]
  simp only [Option.map_some']
  congr 2
  omega

/-- Invariant of the logic-gadget loop: it never fails while the quads stay
inside the bit window, adds one gate and four witnesses per quad, and the
final constraint's fourth wire holds the base-4 accumulation of the output
quads. -/
theorem appendLogicLoop_spec (isXor : Bool) (va vb numBits : ℕ) (hle : numBits ≤ 256) :
    ∀ (n k : ℕ) (cp : Plonk p) (la ra oa : ZMod p) (c : Constraint (ZMod p)),
      2 * (k + n) ≤ numBits →
      ∃ cp' c',
        appendLogicLoop isXor (mkLogicBits va numBits) (mkLogicBits vb numBits)
            (List.range' k n) cp la ra oa c = some (cp', c') ∧
        cp'.constraints.length = cp.constraints.length + n ∧
        cp'.witness.length = cp.witness.length + 4 * n ∧
        (n = 0 → cp' = cp ∧ c' = c) ∧
        (0 < n →
          c'.wD < cp'.witness.length ∧
          cp'.lookup c'.wD =
            (List.range' k n).foldl
              (fun acc i => acc * 4 + ((outQuadOf isXor va vb numBits i : ℕ) : ZMod p)) oa) := by
  intro n
  induction n with
  | zero =>
    intro k cp la ra oa c h
    exact ⟨cp, c, rfl, by omega, by omega, fun _ => ⟨rfl, rfl⟩, fun h0 => absurd h0 (by omega)⟩
  | succ n ih =>
    intro k cp la ra oa c h
    have ha1 : (mkLogicBits va numBits)[k * 2]? =
        some (va.testBit (numBits - 1 - 2 * k)) := by
      rw [mkLogicBits_get va numBits (k * 2) (by omega) hle]
      congr 2
      omega
    have ha2 : (mkLogicBits va numBits)[k * 2 + 1]? =
        some (va.testBit (numBits - 2 - 2 * k)) := by
      rw [mkLogicBits_get va numBits (k * 2 + 1) (by omega) hle]
      congr 2
      omega
    have hb1 : (mkLogicBits vb numBits)[k * 2]? =
        some (vb.testBit (numBits - 1 - 2 * k)) := by
      rw [mkLogicBits_get vb numBits (k * 2) (by omega) hle]
      congr 2
      omega
    have hb2 : (mkLogicBits vb numBits)[k * 2 + 1]? =
        some (vb.testBit (numBits - 2 - 2 * k)) := by
      rw [mkLogicBits_get vb numBits (k * 2 + 1) (by omega) hle]
      congr 2
      omega
    rw [List.range'_succ]
    simp only [appendLogicLoop, ha1, ha2, hb1, hb2]
    set lq : ℕ := 2 * (va.testBit (numBits - 1 - 2 * k)).toNat +
        (va.testBit (numBits - 2 - 2 * k)).toNat with hlq
    set rq : ℕ := 2 * (vb.testBit (numBits - 1 - 2 * k)).toNat +
        (vb.testBit (numBits - 2 - 2 * k)).toNat with hrq
    set outq : ℕ := if isXor then lq ^^^ rq else lq &&& rq with houtq
    set s1 := cp.appendWitness (la * 4 + (lq : ZMod p)) with hs1
    set s2 := s1.1.appendWitness (ra * 4 + (rq : ZMod p)) with hs2
    set s3 := s2.1.appendWitness ((lq * rq : ℕ) : ZMod p) with hs3
    set s4 := s3.1.appendWitness (oa * 4 + (outq : ZMod p)) with hs4
    set c1 := (((c.o s3.2).a s1.2).b s2.2).d s4.2 with hc1
    set cp1 := s4.1.appendCustomGate (c.o s3.2) with hcp1
    obtain ⟨cp', c', heq, hclen, hwlen, hz, hpos⟩ :=
      ih (k + 1) cp1 (la * 4 + (lq : ZMod p)) (ra * 4 + (rq : ZMod p))
        (oa * 4 + (outq : ZMod p)) c1 (by omega)
    have hcp1w : cp1.witness = ((cp.witness ++ [la * 4 + (lq : ZMod p)]
        ++ [ra * 4 + (rq : ZMod p)]) ++ [((lq * rq : ℕ) : ZMod p)])
        ++ [oa * 4 + (outq : ZMod p)] := by
      rw [hcp1, hs4, hs3, hs2, hs1]
      simp only [appendCustomGate_witness, appendWitness_fst_witness]
    have hcp1wlen : cp1.witness.length = cp.witness.length + 4 := by
      rw [hcp1w]
      simp
    have hcp1clen : cp1.constraints.length = cp.constraints.length + 1 := by
      rw [hcp1, hs4, hs3, hs2, hs1]
      simp only [appendCustomGate_constraints, appendWitness_fst_constraints]
      simp
    have hwD : c1.wD = cp.witness.length + 3 := by
      rw [hc1, hs4, hs3, hs2, hs1]
      simp only [Constraint.d, appendWitness_snd, appendWitness_fst_witness]
      simp
    have houtfold : (oa * 4 + (outq : ZMod p))
        = oa * 4 + ((outQuadOf isXor va vb numBits k : ℕ) : ZMod p) := by
      rw [houtq, hlq, hrq]
      simp only [outQuadOf, quadOf]
    refine ⟨cp', c', heq, by omega, by omega, fun h0 => absurd h0 (by omega), fun _ => ?_⟩
    rcases Nat.eq_zero_or_pos n with hn0 | hnpos
    · subst hn0
      obtain ⟨hcp', hc'⟩ := hz rfl
      subst hcp'
      subst hc'
      refine ⟨?_, ?_⟩
      · rw [hwD, hcp1wlen]
        omega
      · have hself : cp1.lookup c1.wD = oa * 4 + (outq : ZMod p) := by
          rw [hwD, hcp1, lookup_appendCustomGate]
          simp only [Plonk.lookup]
          rw [hs4, appendWitness_fst_witness]
          have hlen3 : s3.1.witness.length = cp.witness.length + 3 := by
            rw [hs3, hs2, hs1]
            simp [appendWitness_fst_witness]
          rw [List.getD_append_right _ _ _ _ (by omega)]
          rw [hlen3]
          simp
        rw [hself, houtfold]
        simp [List.foldl_cons]
    · obtain ⟨hlt, hlook⟩ := hpos hnpos
      refine ⟨hlt, ?_⟩
      simp only [List.foldl_cons]
      rw [houtfold] at hlook
      exact hlook

/-- Conversion of the output-quad accumulation into the masked bitwise result. -/
theorem foldl_outQuad (isXor : Bool) (va vb q : ℕ) :
    (List.range' 0 q).foldl
        (fun acc i => acc * 4 + ((outQuadOf isXor va vb (2 * q) i : ℕ) : ZMod p)) 0
      = (((if isXor then va ^^^ vb else va &&& vb) % 2 ^ (2 * q) : ℕ) : ZMod p) := by
  have hz : ((0 : ZMod p)) = (((0 : ℕ) : ZMod p)) := by simp
  simp only [outQuadOf_eq]
  rw [hz, foldl_acc_cast (fun i => quadOf (if isXor then va ^^^ vb else va &&& vb) (2 * q) i)
    (List.range' 0 q) 0]
  rw [foldl_quad_eq_mod]
  have h24 : (2 : ℕ) ^ (2 * q) = 4 ^ q := by
    rw [pow_mul]
    norm_num
  rw [h24]

/-- Specification of `append_logic_component`: it always succeeds, appends
exactly `min(num_bits,256)/2 + 1` gates, and (for even clamped bit count, in a
composer whose ZERO wire holds 0) the returned wire holds the masked bitwise
result of the two operands' canonical representatives. -/
theorem appendLogicComponent_spec (cp : Plonk p) (a b : ℕ) (numBits : ℕ) (isXor : Bool) :
    ∃ cp' d,
      cp.appendLogicComponent a b numBits isXor = some (cp', d) ∧
      cp'.constraints.length = cp.constraints.length + (min numBits 256 / 2 + 1) ∧
      (min numBits 256 % 2 = 0 → cp.lookup 0 = 0 →
        cp'.lookup d =
          (((if isXor then (cp.lookup a).val ^^^ (cp.lookup b).val
              else (cp.lookup a).val &&& (cp.lookup b).val) % 2 ^ min numBits 256 : ℕ) :
            ZMod p)) := by
  obtain ⟨cp1, c', heq, hclen, hwlen, hzq, hpos⟩ :=
    appendLogicLoop_spec isXor (cp.lookup a).val (cp.lookup b).val (min numBits 256)
      (by omega) (min numBits 256 / 2) 0 cp 0 0 0
      (if isXor then Constraint.logicXor Constraint.default
       else Constraint.logic Constraint.default) (by omega)
  refine ⟨cp1.appendCustomGate (((Constraint.default.a c'.wA).b c'.wB).d c'.wD), c'.wD,
    ?_, ?_, ?_⟩
  · simp only [Plonk.appendLogicComponent]
    rw [heq]
  · simp only [appendCustomGate_constraints, List.length_append, List.length_cons,
      List.length_nil]
    omega
  · intro heven h0
    rcases Nat.eq_zero_or_pos (min numBits 256 / 2) with hq0 | hqpos
    · obtain ⟨hcp1, hc'⟩ := hzq hq0
      subst hcp1
      have hnb : min numBits 256 = 0 := by omega
      have hwD0 : c'.wD = 0 := by
        rw [hc']
        cases isXor <;> rfl
      rw [lookup_appendCustomGate, hwD0, h0, hnb]
      simp [Nat.mod_one]
    · obtain ⟨hlt, hlook⟩ := hpos hqpos
      rw [lookup_appendCustomGate, hlook]
      set q := min numBits 256 / 2 with hq
      have h2q : min numBits 256 = 2 * q := by omega
      rw [h2q]
      exact foldl_outQuad isXor _ _ q

/-- C1: for every pair of witness values and every even `num_bits <= 256`,
`append_logic_and` returns a wire holding the field encoding of
`(a AND b) & mask(num_bits)` and `append_logic_xor` one holding
`(a XOR b) & mask(num_bits)` (bitwise operations on the canonical
representatives, masked to the low `num_bits`). -/
theorem append_logic_and_xor_correct (cp : Plonk p) (a b numBits : ℕ)
    (hzero : cp.lookup 0 = 0) (heven : numBits % 2 = 0) (hle : numBits ≤ 256) :
    ((cp.appendLogicAnd a b numBits).map fun r => r.1.lookup r.2)
        = some ((((cp.lookup a).val &&& (cp.lookup b).val) % 2 ^ numBits : ℕ) : ZMod p) ∧
    ((cp.appendLogicXor a b numBits).map fun r => r.1.lookup r.2)
        = some ((((cp.lookup a).val ^^^ (cp.lookup b).val) % 2 ^ numBits : ℕ) : ZMod p) := by
  have hmin : min numBits 256 = numBits := by omega
  constructor
  · obtain ⟨cp', d, heq, hlen, hval⟩ := appendLogicComponent_spec cp a b numBits false
    simp only [Plonk.appendLogicAnd]
    rw [heq, Option.map_some', hval (by omega) hzero]
    simp [hmin]
  · obtain ⟨cp', d, heq, hlen, hval⟩ := appendLogicComponent_spec cp a b numBits true
    simp only [Plonk.appendLogicXor]
    rw [heq, Option.map_some', hval (by omega) hzero]
    simp [hmin]

/-- C1 witness: the theorem applied at `p = 101`, operands 7 and 8 and
`num_bits = 4`. -/
theorem append_logic_and_xor_correct_witness :
    cpEx.lookup 0 = 0 ∧ 4 % 2 = 0 ∧ 4 ≤ 256 ∧
      (((cpEx.appendLogicAnd 10 11 4).map fun r => r.1.lookup r.2)
          = some ((((cpEx.lookup 10).val &&& (cpEx.lookup 11).val) % 2 ^ 4 : ℕ) : ZMod 101) ∧
        ((cpEx.appendLogicXor 10 11 4).map fun r => r.1.lookup r.2)
          = some ((((cpEx.lookup 10).val ^^^ (cpEx.lookup 11).val) % 2 ^ 4 : ℕ) : ZMod 101)) :=
  ⟨rfl, rfl, by omega, append_logic_and_xor_correct cpEx 10 11 4 rfl rfl (by omega)⟩

/-- C6 (amended): every logic-gadget call appends exactly `num_quads + 1`
constraints where `num_quads = min(num_bits, 256) / 2` (integer division, so
27 for `num_bits = 55`). -/
theorem logic_gate_count (cp : Plonk p) (a b numBits : ℕ) (isXor : Bool) :
    ((cp.appendLogicComponent a b numBits isXor).map fun r => r.1.constraints.length)
      = some (cp.constraints.length + (min numBits 256 / 2 + 1)) := by
  obtain ⟨cp', d, heq, hclen, hval⟩ := appendLogicComponent_spec cp a b numBits isXor
  rw [heq, Option.map_some', hclen]

/-- The range loop never fails while every bit access and every constraint
index stays in range. -/
theorem rangeLoop_isSome (bits : List Bool) (numQuads : ℕ) :
    ∀ (idxs : List ℕ) (cp : Plonk p) (acc : ZMod p) (accs : List ℕ)
      (cs : List (Constraint (ZMod p))),
      (∀ i ∈ idxs, (numQuads - i) * 2 + 1 < bits.length ∧ i / 4 < cs.length) →
      (rangeLoop bits numQuads idxs cp acc accs cs).isSome = true := by
  intro idxs
  induction idxs with
  | nil =>
    intro cp acc accs cs h
    simp [rangeLoop]
  | cons i rest ih =>
    intro cp acc accs cs h
    have hi := h i (List.mem_cons_self i rest)
    obtain ⟨v0, hv0⟩ : ∃ v, bits[(numQuads - i) * 2]? = some v := by
      rw [List.getElem?_eq_getElem (by omega)]
      exact ⟨_, rfl⟩
    obtain ⟨v1, hv1⟩ : ∃ v, bits[(numQuads - i) * 2 + 1]? = some v := by
      rw [List.getElem?_eq_getElem (by omega)]
      exact ⟨_, rfl⟩
    simp only [rangeLoop, hv0, hv1]
    rw [if_pos hi.2]
    apply ih
    intro j hj
    have hjall := h j (List.mem_cons_of_mem i hj)
    simpa [List.length_set] using hjall

/-- `component_range` returns normally for every `num_bits < 256`. -/
theorem componentRange_isSome (cp : Plonk p) (w numBits : ℕ) (hle : numBits ≤ 255) :
    (cp.componentRange w numBits).isSome = true := by
  simp only [Plonk.componentRange]
  set bits := (List.range 256).map (fun j => (cp.lookup w).val.testBit j) with hbits
  set ng := if numBits % 8 ≠ 0 then numBits / 8 + 1 else numBits / 8 with hng
  have hbl : bits.length = 256 := by
    rw [hbits]
    simp
  have hngFacts : numBits ≤ 8 * ng ∧ 8 * ng ≤ numBits + 8 := by
    rw [hng]
    by_cases h8 : numBits % 8 = 0 <;> simp [h8] <;> omega
  have hbound : ∀ i ∈ List.range' (1 + (ng * 4 * 2 - numBits) / 2)
      (ng * 4 + 1 - (1 + (ng * 4 * 2 - numBits) / 2)),
      (ng * 4 - i) * 2 + 1 < bits.length ∧
        i / 4 <
          (List.replicate (ng + 1) (Constraint.range Constraint.default : Constraint (ZMod p))).length := by
    intro i hi
    rw [List.mem_range'_1] at hi
    rw [hbl, List.length_replicate]
    omega
  obtain ⟨y, hy⟩ := Option.isSome_iff_exists.mp
    (rangeLoop_isSome bits (ng * 4)
      (List.range' (1 + (ng * 4 * 2 - numBits) / 2)
        (ng * 4 + 1 - (1 + (ng * 4 * 2 - numBits) / 2)))
      cp 0 []
      (List.replicate (ng + 1) (Constraint.range Constraint.default : Constraint (ZMod p)))
      hbound)
  rw [hy]
  obtain ⟨cp1, acc1, accs1, cs1⟩ := y
  cases haccs : accs1.getLast? <;> simp [haccs]

set_option maxRecDepth 4000 in
/-- C4 counterexample: at the odd bit count 55 neither the logic gadget nor
the range gadget panics; both return normally. -/
theorem odd_bits_do_not_panic_at_55 :
    (cpEx.appendLogicAnd 10 11 55).isSome = true ∧
      (cpEx.componentRange 10 55).isSome = true := by
  constructor <;> decide

/-- C4 (amended): odd `num_bits` is not rejected: the logic gadget silently
processes `floor(num_bits/2)` quads and returns normally for every odd
`num_bits`, and the range gadget pads and returns normally for every odd
`num_bits < 256`; no panic occurs. -/
theorem odd_bits_no_panic (cp : Plonk p) (a b w numBits : ℕ) (isXor : Bool)
    (hodd : numBits % 2 = 1) :
    (cp.appendLogicComponent a b numBits isXor).isSome = true ∧
      (numBits < 256 → (cp.componentRange w numBits).isSome = true) := by
  constructor
  · obtain ⟨cp', d, heq, hlen, hval⟩ := appendLogicComponent_spec cp a b numBits isXor
    rw [heq]
    rfl
  · intro hlt
    exact componentRange_isSome cp w numBits (by omega)

/-- C4 witness: the amended theorem applied at `num_bits = 55`. -/
theorem odd_bits_no_panic_witness :
    55 % 2 = 1 ∧
      ((cpEx.appendLogicComponent 10 11 55 false).isSome = true ∧
        (55 < 256 → (cpEx.componentRange 10 55).isSome = true)) :=
  ⟨rfl, odd_bits_no_panic cpEx 10 11 10 55 false rfl⟩

theorem appendEvaluatedOutput_output_neg_one (cp : Plonk p) (s : Constraint (ZMod p))
    (h : s.qO = -1) :
    cp.appendEvaluatedOutput s = some (cp.appendWitness (constraintEval cp s)) := by
  simp only [Plonk.appendEvaluatedOutput, h]
  by_cases h1 : (-1 : ZMod p) = 1
  · rw [if_pos h1]
    have hx : -(constraintEval cp s) = constraintEval cp s := by
      calc -(constraintEval cp s) = -1 * constraintEval cp s := (neg_one_mul _).symm
        _ = 1 * constraintEval cp s := by rw [h1]
        _ = constraintEval cp s := one_mul _
    rw [hx]
    rfl
  · rw [if_neg h1]
    simp

theorem gateAdd_eq (cp : Plonk p) (s : Constraint (ZMod p)) :
    cp.gateAdd s =
      ((cp.appendWitness
          (constraintEval cp ((Constraint.arithmetic s).output (-1)))).1.appendGate
            (((Constraint.arithmetic s).output (-1)).o cp.witness.length),
        cp.witness.length) := by
  simp only [Plonk.gateAdd]
  rw [appendEvaluatedOutput_output_neg_one _ _ rfl]
  rfl

theorem gateMul_eq_gateAdd (cp : Plonk p) (s : Constraint (ZMod p)) :
    cp.gateMul s = cp.gateAdd s := rfl

theorem gateAdd_snd (cp : Plonk p) (s : Constraint (ZMod p)) :
    (cp.gateAdd s).2 = cp.witness.length := by
  rw [gateAdd_eq]

theorem gateAdd_fst_witness (cp : Plonk p) (s : Constraint (ZMod p)) :
    ((cp.gateAdd s).1).witness
      = cp.witness ++ [constraintEval cp ((Constraint.arithmetic s).output (-1))] := by
  rw [gateAdd_eq]
  rfl

theorem gateAdd_fst_witness_length (cp : Plonk p) (s : Constraint (ZMod p)) :
    ((cp.gateAdd s).1).witness.length = cp.witness.length + 1 := by
  rw [gateAdd_fst_witness]
  simp

theorem gateAdd_fst_constraints_length (cp : Plonk p) (s : Constraint (ZMod p)) :
    ((cp.gateAdd s).1).constraints.length = cp.constraints.length + 1 := by
  rw [gateAdd_eq]
  simp only [Plonk.appendGate, appendCustomGate_constraints, appendWitness_fst_constraints]
  simp

theorem gateAdd_lookup (cp : Plonk p) (s : Constraint (ZMod p)) (i : ℕ) :
    ((cp.gateAdd s).1).lookup i =
      if i = cp.witness.length then constraintEval cp ((Constraint.arithmetic s).output (-1))
      else cp.lookup i := by
  rw [gateAdd_eq]
  show ((cp.appendWitness _).1.appendGate _).lookup i = _
  rw [Plonk.appendGate, lookup_appendCustomGate]
  simp only [Plonk.lookup, appendWitness_fst_witness]
  rcases Nat.lt_trichotomy i cp.witness.length with hlt | heq | hgt
  · rw [if_neg (by omega), List.getD_append _ _ _ _ hlt]
  · subst heq
    rw [if_pos rfl, List.getD_append_right _ _ _ _ (le_refl _)]
    simp
  · rw [if_neg (by omega), List.getD_append_right _ _ _ _ (by omega)]
    rw [List.getD_eq_default _ _ (by simp; omega), List.getD_eq_default _ _ (by omega)]

/-- C8 (amended): `component_select(bit, a, b)` returns a wire whose witness
value is `bit*a + (1-bit)*b` for boolean `bit`, and each call emits exactly
FOUR gates (mul, add, mul, add), not three. -/
theorem component_select_spec (cp : Plonk p) (bit a b : ℕ)
    (hbit : bit < cp.witness.length) (ha : a < cp.witness.length) (hb : b < cp.witness.length)
    (hbool : cp.lookup bit = 0 ∨ cp.lookup bit = 1) :
    ((cp.componentSelect bit a b).1).lookup (cp.componentSelect bit a b).2
        = cp.lookup bit * cp.lookup a + (1 - cp.lookup bit) * cp.lookup b ∧
      ((cp.componentSelect bit a b).1).constraints.length = cp.constraints.length + 4 := by
  simp only [Plonk.componentSelect, gateMul_eq_gateAdd]
  set len := cp.witness.length with hlen
  set s1 : Constraint (ZMod p) := ((Constraint.default.mult 1).a bit).b a with hs1
  set w1 := (cp.gateAdd s1).2 with hw1
  set cp1 := (cp.gateAdd s1).1 with hcp1
  set s2 : Constraint (ZMod p) := ((Constraint.default.left (-1)).constant 1).a bit with hs2
  set w2 := (cp1.gateAdd s2).2 with hw2
  set cp2 := (cp1.gateAdd s2).1 with hcp2
  set s3 : Constraint (ZMod p) := ((Constraint.default.mult 1).a w2).b b with hs3
  set w3 := (cp2.gateAdd s3).2 with hw3
  set cp3 := (cp2.gateAdd s3).1 with hcp3
  set s4 : Constraint (ZMod p) := (((Constraint.default.left 1).right 1).a w3).b w1 with hs4
  have hw1v : w1 = len := by rw [hw1, gateAdd_snd]
  have hL1 : cp1.witness.length = len + 1 := by rw [hcp1, gateAdd_fst_witness_length]
  have hx1 : constraintEval cp ((Constraint.arithmetic s1).output (-1))
      = cp.lookup bit * cp.lookup a := by
    simp only [constraintEval, hs1, Constraint.arithmetic, Constraint.output, Constraint.a,
      Constraint.b, Constraint.mult, Constraint.default, Option.getD_none]
    ring
  have hlk1 : ∀ i, cp1.lookup i =
      if i = len then cp.lookup bit * cp.lookup a else cp.lookup i := by
    intro i
    rw [hcp1, gateAdd_lookup, hx1]
  have hlkbit1 : cp1.lookup bit = cp.lookup bit := by
    rw [hlk1 bit, if_neg (by omega)]
  have hw2v : w2 = len + 1 := by rw [hw2, gateAdd_snd, hL1]
  have hL2 : cp2.witness.length = len + 2 := by rw [hcp2, gateAdd_fst_witness_length, hL1]
  have hx2 : constraintEval cp1 ((Constraint.arithmetic s2).output (-1))
      = 1 - cp.lookup bit := by
    simp only [constraintEval, hs2, Constraint.arithmetic, Constraint.output, Constraint.a,
      Constraint.left, Constraint.constant, Constraint.default, Option.getD_none, hlkbit1]
    ring
  have hlkw2 : cp2.lookup w2 = 1 - cp.lookup bit := by
    rw [hcp2, gateAdd_lookup, hx2, hL1, hw2v, if_pos rfl]
  have hlkb2 : cp2.lookup b = cp.lookup b := by
    rw [hcp2, gateAdd_lookup, hL1, if_neg (by omega), hlk1 b, if_neg (by omega)]
  have hx3 : constraintEval cp2 ((Constraint.arithmetic s3).output (-1))
      = (1 - cp.lookup bit) * cp.lookup b := by
    simp only [constraintEval, hs3, Constraint.arithmetic, Constraint.output, Constraint.a,
      Constraint.b, Constraint.mult, Constraint.default, Option.getD_none, hlkw2, hlkb2]
    ring
  have hw3v : w3 = len + 2 := by rw [hw3, gateAdd_snd, hL2]
  have hlkw3 : cp3.lookup w3 = (1 - cp.lookup bit) * cp.lookup b := by
    rw [hcp3, gateAdd_lookup, hx3, hL2, hw3v, if_pos rfl]
  have hlkw1 : cp3.lookup w1 = cp.lookup bit * cp.lookup a := by
    rw [hw1v, hcp3, gateAdd_lookup, hL2, if_neg (by omega), hcp2, gateAdd_lookup, hL1,
      if_neg (by omega), hlk1 len, if_pos rfl]
  have hx4 : constraintEval cp3 ((Constraint.arithmetic s4).output (-1))
      = (1 - cp.lookup bit) * cp.lookup b + cp.lookup bit * cp.lookup a := by
    simp only [constraintEval, hs4, Constraint.arithmetic, Constraint.output, Constraint.a,
      Constraint.b, Constraint.left, Constraint.right, Constraint.default, Option.getD_none,
      hlkw3, hlkw1]
    ring
  constructor
  · rw [gateAdd_snd, gateAdd_lookup, if_pos rfl, hx4]
    ring
  · rw [gateAdd_fst_constraints_length, hcp3, gateAdd_fst_constraints_length, hcp2,
      gateAdd_fst_constraints_length, hcp1, gateAdd_fst_constraints_length]

/-- C8 counterexample: `component_select` emits four gates, not three as the
claim states. -/
theorem component_select_four_gates_not_three :
    ((cpSel.componentSelect 12 10 11).1).constraints.length = cpSel.constraints.length + 4 ∧
      ((cpSel.componentSelect 12 10 11).1).constraints.length ≠ cpSel.constraints.length + 3 := by
  constructor <;> decide

/-- C8 witness: the amended theorem applied to a concrete composer with
`bit = 1`, `a = 7`, `b = 8`. -/
theorem component_select_spec_witness :
    12 < cpSel.witness.length ∧ 10 < cpSel.witness.length ∧ 11 < cpSel.witness.length ∧
      (cpSel.lookup 12 = 0 ∨ cpSel.lookup 12 = 1) ∧
      (((cpSel.componentSelect 12 10 11).1).lookup (cpSel.componentSelect 12 10 11).2
          = cpSel.lookup 12 * cpSel.lookup 10 + (1 - cpSel.lookup 12) * cpSel.lookup 11 ∧
        ((cpSel.componentSelect 12 10 11).1).constraints.length
          = cpSel.constraints.length + 4) :=
  ⟨by decide, by decide, by decide, Or.inr rfl,
    component_select_spec cpSel 12 10 11 (by decide) (by decide) (by decide) (Or.inr rfl)⟩

/-- C3: evaluating `seed_transcript` at a key whose sigma commitments differ
shows the entry labelled `s_sigma_4` carries `s_sigma_1`, not `s_sigma_4` —
the flagged copy-paste bug. -/
theorem seed_transcript_sigma4_uses_sigma1 :
    vkEx.seedTranscript.getD 14 (TranscriptEntry.domainSep 0)
        = TranscriptEntry.comm ("s_sigma_4") vkEx.permutation.sSigma1 ∧
      vkEx.permutation.sSigma1 ≠ vkEx.permutation.sSigma4 := by
  constructor <;> decide

/-- C10: `component_mul_generator` is atomic on failure — whenever it returns
an error (an unsupported WNAF digit), the composer state (witness table,
constraints, public inputs and permutation) is exactly the input state:
every digit is validated before the first witness or gate is appended. -/
theorem mul_generator_atomic {P : Type} (cp : Plonk p) (ops : CurveOps (ZMod p) P)
    (cwn : ZMod p → ℕ → List ℤ) (jubjub : ℕ) (generator : P) (e : Error)
    (h : (cp.componentMulGenerator ops cwn jubjub generator).2 = Except.error e) :
    (cp.componentMulGenerator ops cwn jubjub generator).1 = cp := by
  simp only [Plonk.componentMulGenerator] at h ⊢
  cases hw : wnafRounds ops ((doubleChain ops.double generator 256).reverse)
      ((cwn (cp.lookup jubjub) 2).reverse) 0 0 ops.identity with
  | error e2 =>
    rfl
  | ok t =>
    rw [hw] at h
    simp at h

set_option maxRecDepth 2000 in
/-- C10 witness: with a WNAF function producing the unsupported digit 2, the
call errors with `UnsupportedWNAF2k` and the composer is unchanged. -/
theorem mul_generator_atomic_witness :
    (cpEx.componentMulGenerator opsEx (fun _ _ => [2]) 10 1).2
        = Except.error Error.UnsupportedWNAF2k ∧
      (cpEx.componentMulGenerator opsEx (fun _ _ => [2]) 10 1).1 = cpEx :=
  ⟨by rfl, mul_generator_atomic cpEx opsEx (fun _ _ => [2]) 10 1
      Error.UnsupportedWNAF2k (by rfl)⟩

/-- Every error produced after domain construction carries the tag
`ProofVerificationError`. -/
theorem verifyWithDomain_error_is_pve (prf : Proof F G) (ops : TranscriptOps F G T)
    (w : WidgetLinOps F G) (batchCheck : List F → List (F × G × G) → T → Bool)
    (verifierKey : VerificationKey G) (t : T) (pubInputs : List F)
    (domain : EvaluationDomain F) (e : Error)
    (h : prf.verifyWithDomain ops w batchCheck verifierKey t pubInputs domain
        = some (Except.error e)) :
    e = Error.ProofVerificationError := by
  simp only [Proof.verifyWithDomain] at h
  split at h
  · exact Option.noConfusion h
  · split at h
    · exact Option.noConfusion h
    · split at h
      · simp at h
      · simp at h
        exact h.symm

/-- C9 (amended): every error returned by `Proof::verify` is either
`ProofVerificationError` (the mapped batch-check failure) or `DomainTooLarge`
propagated from evaluation-domain construction when `vk.n` exceeds the
supported size; `UnsupportedWNAF2k` is never returned by verification. -/
theorem verify_error_kinds (prf : Proof F G) (mk : ℕ → EvaluationDomain F)
    (ops : TranscriptOps F G T) (w : WidgetLinOps F G)
    (batchCheck : List F → List (F × G × G) → T → Bool)
    (verifierKey : VerificationKey G) (t : T) (pubInputs : List F) (e : Error)
    (h : prf.verify mk ops w batchCheck verifierKey t pubInputs
        = some (Except.error e)) :
    e = Error.ProofVerificationError ∨
      (e = Error.DomainTooLarge ∧ 2 ^ maxLogSize < verifierKey.n) := by
  simp only [Proof.verify, EvaluationDomain.new] at h
  split_ifs at h with hcond
  · simp at h
    exact Or.inr ⟨h.symm, hcond⟩
  · simp only [] at h
    exact Or.inl
      (verifyWithDomain_error_is_pve prf ops w batchCheck verifierKey t pubInputs
        (mk verifierKey.n) e h)
instance fact_prime_101 : Fact (Nat.Prime 101) := ⟨by norm_num⟩

/-- C9 counterexample: with `vk.n = 2^33`, `Proof::verify` returns the error
`DomainTooLarge`, which is not the single tag `ProofVerificationError` the
claim allows. -/
theorem verify_returns_domain_too_large :
    proofEx.verify (fun _ => domainEx) transcriptOpsEx widgetLinOpsEx
        (fun _ _ _ => true) vkBig () []
      = some (Except.error Error.DomainTooLarge) ∧
      Error.DomainTooLarge ≠ Error.ProofVerificationError := by
  refine ⟨rfl, ?_⟩
  decide

/-- C9 witness: the amended theorem applied at the oversized key. -/
theorem verify_error_kinds_witness :
    proofEx.verify (fun _ => domainEx) transcriptOpsEx widgetLinOpsEx
        (fun _ _ _ => true) vkBig () []
      = some (Except.error Error.DomainTooLarge) ∧
      (Error.DomainTooLarge = Error.ProofVerificationError ∨
        (Error.DomainTooLarge = Error.DomainTooLarge ∧ 2 ^ maxLogSize < vkBig.n)) :=
  ⟨rfl,
    verify_error_kinds proofEx (fun _ => domainEx) transcriptOpsEx widgetLinOpsEx
      (fun _ _ _ => true) vkBig () [] Error.DomainTooLarge rfl⟩

/-- C2: `compute_quotient_evaluation` computes exactly
`Z_H(ζ)⁻¹ · (r_eval + PI(ζ) − ((a+βσ1+γ)(b+βσ2+γ)(c+βσ3+γ)(d+γ)·perm·α) −
L_1(ζ)·α²)` whenever `Z_H(ζ)` is nonzero (as in the source, the shifted
permutation evaluation passed for `z_hat_eval` is `perm_eval`). -/
theorem quotient_evaluation_formula (domain : EvaluationDomain F)
    (pubInputs : List F) (alpha beta gamma zChallenge l1Eval : F) (n : ℕ)
    (ev : ProofEvaluations F) (hzh : polynomialT n zChallenge ≠ 0) :
    computeQuotientEvaluation domain pubInputs alpha beta gamma zChallenge
        (polynomialT n zChallenge) l1Eval ev.permEval ev
      = some ((polynomialT n zChallenge)⁻¹ *
          (ev.rPolyEval + computeBarycentricEval pubInputs zChallenge domain -
            (ev.aEval + beta * ev.sSigma1Eval + gamma) *
              (ev.bEval + beta * ev.sSigma2Eval + gamma) *
              (ev.cEval + beta * ev.sSigma3Eval + gamma) *
              (ev.dEval + gamma) * ev.permEval * alpha -
            l1Eval * alpha ^ 2)) := by
  simp only [computeQuotientEvaluation, invert, if_neg hzh, Option.map_some']
  congr 1
  ring

/-- C2 witness: the theorem applied at concrete challenges over `ZMod 101`
(where `Z_H(7) = 7^4 - 1 ≠ 0`). -/
theorem quotient_evaluation_formula_witness :
    polynomialT 4 (7 : ZMod 101) ≠ 0 ∧
      computeQuotientEvaluation domainEx [1, 2] 2 3 5 7 (polynomialT 4 (7 : ZMod 101))
          4 proofEx.evaluations.permEval proofEx.evaluations
        = some ((polynomialT 4 (7 : ZMod 101))⁻¹ *
            (proofEx.evaluations.rPolyEval +
                computeBarycentricEval [1, 2] 7 domainEx -
              (proofEx.evaluations.aEval + 3 * proofEx.evaluations.sSigma1Eval + 5) *
                (proofEx.evaluations.bEval + 3 * proofEx.evaluations.sSigma2Eval + 5) *
                (proofEx.evaluations.cEval + 3 * proofEx.evaluations.sSigma3Eval + 5) *
                (proofEx.evaluations.dEval + 5) * proofEx.evaluations.permEval * 2 -
              4 * 2 ^ 2)) :=
  ⟨by decide,
    quotient_evaluation_formula domainEx [1, 2] 2 3 5 7 4 4 proofEx.evaluations
      (by decide)⟩

/-- Summing the batch-inverted denominators against the evaluations equals
the sum of the quotients. -/
theorem zip_inv_sum (den f : ℕ → F) (l : List ℕ) :
    ((((l.map den).map (fun x => x⁻¹)).zip l).map (fun di => di.1 * f di.2)).sum
      = (l.map (fun i => f i / den i)).sum := by
  induction l with
  | nil => rfl
  | cons x xs ih =>
    simp only [List.map_cons, List.zip_cons_cons, List.sum_cons, ih]
    ring

/-- C5: the verifier's public-input evaluation equals
`((ζ^n − 1)/n) · Σ_{i : v_i ≠ 0} v_i / (ω^{-i}·ζ − 1)` — only the indices
with non-zero entries contribute and only their denominators are inverted. -/
theorem barycentric_eval_formula (v : List F) (point : F)
    (domain : EvaluationDomain F)
    (hInv : domain.sizeInv = ((domain.sizeN : F))⁻¹)
    (hGen : domain.groupGenInv = (domain.groupGen)⁻¹)
    (hOff : ∀ i < v.length, domain.groupGenInv ^ i * point - 1 ≠ 0) :
    computeBarycentricEval v point domain =
      (point ^ domain.sizeN - 1) / ((domain.sizeN : F)) *
        ((((List.range v.length).filter (fun i => v.getD i 0 ≠ 0)).map
          (fun i => v.getD i 0 / ((domain.groupGen)⁻¹ ^ i * point - 1))).sum) := by
  simp only [computeBarycentricEval, batchInversion]
  rw [mul_comm]
  congr 1
  · rw [hInv, div_eq_mul_inv]
  · rw [hGen]
    exact zip_inv_sum (fun index => (domain.groupGen)⁻¹ ^ index * point - 1)
      (fun i => v.getD i 0) _

/-- C5 witness: the theorem applied to the list `[3, 0, 5]` (one zero entry)
at `ζ = 7` over `ZMod 101`. -/
theorem barycentric_eval_formula_witness :
    (domainC5.sizeInv = ((domainC5.sizeN : ZMod 101))⁻¹ ∧
      domainC5.groupGenInv = (domainC5.groupGen)⁻¹ ∧
      (∀ i < ([3, 0, 5] : List (ZMod 101)).length,
        domainC5.groupGenInv ^ i * 7 - 1 ≠ 0)) ∧
      computeBarycentricEval ([3, 0, 5] : List (ZMod 101)) 7 domainC5 =
        ((7 : ZMod 101) ^ domainC5.sizeN - 1) / ((domainC5.sizeN : ZMod 101)) *
          ((((List.range ([3, 0, 5] : List (ZMod 101)).length).filter
              (fun i => ([3, 0, 5] : List (ZMod 101)).getD i 0 ≠ 0)).map
            (fun i => ([3, 0, 5] : List (ZMod 101)).getD i 0 /
              ((domainC5.groupGen)⁻¹ ^ i * 7 - 1))).sum) :=
  ⟨⟨eq_inv_of_mul_eq_one_left (by decide), eq_inv_of_mul_eq_one_left (by decide),
      by decide⟩,
    barycentric_eval_formula ([3, 0, 5] : List (ZMod 101)) 7 domainC5
      (eq_inv_of_mul_eq_one_left (by decide)) (eq_inv_of_mul_eq_one_left (by decide))
      (by decide)⟩

set_option maxRecDepth 4000 in
/-- C6 counterexample: at `num_bits = 55` the gadget emits 28 gates, not
`ceil(55/2) + 1 = 29` as the claim states. -/
theorem logic_55_gate_count_28_not_29 :
    ((cpEx.appendLogicAnd 10 11 55).map fun r => r.1.constraints.length)
        = some (cpEx.constraints.length + 28) ∧
      ((cpEx.appendLogicAnd 10 11 55).map fun r => r.1.constraints.length)
        ≠ some (cpEx.constraints.length + 29) := by
  constructor
  · decide
  · decide

/-- C7 counterexample: immediately after `initialize` the constraint list has
six gates, not four as the claim states. -/
theorem initialize_gate_count_is_six_not_four :
    (Plonk.initialized 101).constraints.length = 6 ∧ (6 : ℕ) ≠ 4 := by
  exact ⟨rfl, by decide⟩

/-- C7 (amended): after `initialize`, witness 0 holds 0 and witness 1 holds 1;
gates 0 and 1 are arithmetic gates asserting them equal to the constants 0
and 1 (`q_l = 1`, `q_c = 0` resp. `q_c = -1`, `w_a` the corresponding wire);
and the constraint list holds exactly six gates at indices 0-5: the two
constant assertions plus the four blinding arithmetic gates added by the two
`append_dummy_gates` calls. -/
theorem initialize_state (q : ℕ) :
    (Plonk.initialized q).witness.getD 0 0 = 0 ∧
    (Plonk.initialized q).witness.getD 1 0 = 1 ∧
    ((Plonk.initialized q).constraints.getD 0 Constraint.default).wA = 0 ∧
    ((Plonk.initialized q).constraints.getD 0 Constraint.default).qL = 1 ∧
    ((Plonk.initialized q).constraints.getD 0 Constraint.default).qC = 0 ∧
    ((Plonk.initialized q).constraints.getD 0 Constraint.default).qArith = 1 ∧
    ((Plonk.initialized q).constraints.getD 1 Constraint.default).wA = 1 ∧
    ((Plonk.initialized q).constraints.getD 1 Constraint.default).qL = 1 ∧
    ((Plonk.initialized q).constraints.getD 1 Constraint.default).qC = -1 ∧
    ((Plonk.initialized q).constraints.getD 1 Constraint.default).qArith = 1 ∧
    (Plonk.initialized q).constraints.length = 6 := by
  refine ⟨rfl, rfl, rfl, rfl, ?_, rfl, rfl, rfl, rfl, rfl, rfl⟩
  show -(0 : ZMod q) = 0
  exact neg_zero


end Zkplonk

